import Mathlib

/-!
Verification of the selector-builder module (`src/05-objects-tasks.js`).

The JavaScript class `SelectorBuild` keeps
  * `positions`  : the fixed canonical list of the six part kinds,
  * `selectors`  : an insertion-ordered `Map` from kind to either a single
    rendered fragment (element, id, pseudoElement) or an array of rendered
    fragments (class, attr, pseudoClass),
  * `arrCombine` : an array of already-rendered fragments filled by `combine`.

We embed the `Map` as an insertion-ordered association list
`List (Kind × List String)` (a scalar slot is a singleton list; `stringify`
flattens one level with `.flat()`, so this is observationally identical), and
`arrCombine` as a flat `List String` (again identical after `.flat().join('')`).
Each adder method becomes a function `String → SelState → Option SelErr × SelState`
returning the error thrown (if any) together with the post-call state; the JS
methods mutate first and validate afterwards, and the embedding keeps that
order of operations.
-/

/-- The six selector part kinds (`positions` entries in the source).  `cls`
stands for the source's `class` key, which is a reserved word in Lean. -/
inductive Kind : Type
  | element
  | id
  | cls
  | attr
  | pseudoClass
  | pseudoElement
deriving DecidableEq, Repr, Fintype

/-- Canonical index of a kind: its position in the source's `positions` array. -/
def kindIdx : Kind → Nat
  | Kind.element => 0
  | Kind.id => 1
  | Kind.cls => 2
  | Kind.attr => 3
  | Kind.pseudoClass => 4
  | Kind.pseudoElement => 5

/-- `this.positions = ['element', 'id', 'class', 'attr', 'pseudoClass', 'pseudoElement']`. -/
def positions : List Kind :=
  [Kind.element, Kind.id, Kind.cls, Kind.attr, Kind.pseudoClass, Kind.pseudoElement]

/-- The kinds whose slot holds a single fragment and whose adder calls
`validUniq` (element, id, pseudo-element). -/
def isScalar : Kind → Bool
  | Kind.element => true
  | Kind.id => true
  | Kind.pseudoElement => true
  | _ => false

/-- The two errors the source throws: `validUniq`'s message for a repeated
scalar part, `validPosition`'s message for an out-of-order part. -/
inductive SelErr : Type
  | DuplicatePartError
  | OrderViolationError
deriving DecidableEq, Repr

/-- State of one `SelectorBuild` instance: the insertion-ordered `selectors`
map and the `arrCombine` array. -/
structure SelState : Type where
  selectors : List (Kind × List String)
  arrCombine : List String
deriving DecidableEq, Repr

/-- `new SelectorBuild()`: empty map, empty combine array. -/
def emptySel : SelState := ⟨[], []⟩

/-- `[...this.selectors.keys()]`: the keys in insertion order. -/
def SelState.keys (s : SelState) : List Kind := s.selectors.map Prod.fst

/-- `[...this.selectors.values()].flat()`: all fragments in map order. -/
def SelState.valuesFlat (s : SelState) : List String := s.selectors.flatMap Prod.snd

/-- Store fragment `v` under kind `k`: `Map.prototype.set` with a fresh key
appends an entry at the end, and `this.selectors.get(k).push(...)` appends to
the existing entry in place.  Both cases of the source reduce to this. -/
def addFrag : List (Kind × List String) → Kind → String → List (Kind × List String)
  | [], k, v => [(k, [v])]
  | (k', vs) :: rest, k, v =>
    if k' = k then (k', vs ++ [v]) :: rest else (k', vs) :: addFrag rest k v

/-- The boolean computed as `correctPos` inside `validPosition`, as a function
of the insertion-ordered key list: filter `positions` down to the present keys
(`currentPos`, the keys in canonical order) and test whether some key sits at
an insertion index strictly greater than its canonical index. -/
def posViolation (selecKeys : List Kind) : Bool :=
  let currentPos := positions.filter (fun p => decide (p ∈ selecKeys))
  selecKeys.enum.any (fun p => currentPos.indexOf p.2 < p.1)

/-- `validPosition()` throws exactly when this is `true`. -/
def validPosition (s : SelState) : Bool := posViolation s.keys

/-- `validUniq(k)` throws exactly when this is `true`: the key is present. -/
def validUniq (s : SelState) (k : Kind) : Bool := decide (k ∈ s.keys)

/-- Rendered fragment for a raw value, per adder: `value`, `#value`, `.value`,
`[value]`, `:value`, `::value`. -/
def frag : Kind → String → String
  | Kind.element, v => v
  | Kind.id, v => "#" ++ v
  | Kind.cls, v => "." ++ v
  | Kind.attr, v => "[" ++ v ++ "]"
  | Kind.pseudoClass, v => ":" ++ v
  | Kind.pseudoElement, v => "::" ++ v

namespace SelectorBuild

/-- Shared body of the three scalar adders: `validUniq` (throws before any
mutation), then `set`, then `validPosition` (throws after the mutation). -/
def scalarAdd (k : Kind) (v : String) (s : SelState) : Option SelErr × SelState :=
  if validUniq s k then (some SelErr.DuplicatePartError, s)
  else
    let s' : SelState := { s with selectors := addFrag s.selectors k (frag k v) }
    if validPosition s' then (some SelErr.OrderViolationError, s') else (none, s')

/-- Shared body of the three multi-valued adders: `isSelectorHas` (ensure the
entry exists), `push`, then `validPosition` (throws after the mutation). -/
def multiAdd (k : Kind) (v : String) (s : SelState) : Option SelErr × SelState :=
  let s' : SelState := { s with selectors := addFrag s.selectors k (frag k v) }
  if validPosition s' then (some SelErr.OrderViolationError, s') else (none, s')

/-- `element(value)`. -/
def element (v : String) (s : SelState) : Option SelErr × SelState :=
  scalarAdd Kind.element v s

/-- `id(value)`. -/
def id (v : String) (s : SelState) : Option SelErr × SelState :=
  scalarAdd Kind.id v s

/-- `class(value)` (`class` is reserved in Lean). -/
def cls (v : String) (s : SelState) : Option SelErr × SelState :=
  multiAdd Kind.cls v s

/-- `attr(value)`. -/
def attr (v : String) (s : SelState) : Option SelErr × SelState :=
  multiAdd Kind.attr v s

/-- `pseudoClass(value)`. -/
def pseudoClass (v : String) (s : SelState) : Option SelErr × SelState :=
  multiAdd Kind.pseudoClass v s

/-- `pseudoElement(value)`. -/
def pseudoElement (v : String) (s : SelState) : Option SelErr × SelState :=
  scalarAdd Kind.pseudoElement v s

/-- `combine(selector1, combinator, selector2)` running on receiver `s`:
pushes onto `s.arrCombine` the values of `selector1`, the token
`` ` ${combinator} ` ``, the values of `selector2`, and `selector2.arrCombine`.
Note that `selector1.arrCombine` is NOT pushed. -/
def combine (s : SelState) (s1 : SelState) (comb : String) (s2 : SelState) : SelState :=
  { s with arrCombine :=
      s.arrCombine ++ s1.valuesFlat ++ [" " ++ comb ++ " "] ++ s2.valuesFlat ++ s2.arrCombine }

end SelectorBuild

/-- `stringify()`: if `arrCombine` is non-empty, join it; otherwise join the
flattened map values. -/
def SelState.stringify (s : SelState) : String :=
  if s.arrCombine ≠ [] then String.join s.arrCombine
  else String.join s.valuesFlat

/-- Dispatch one adder call given as a kind and a raw value. -/
def runCall : Kind × String → SelState → Option SelErr × SelState
  | (Kind.element, v), s => SelectorBuild.element v s
  | (Kind.id, v), s => SelectorBuild.id v s
  | (Kind.cls, v), s => SelectorBuild.cls v s
  | (Kind.attr, v), s => SelectorBuild.attr v s
  | (Kind.pseudoClass, v), s => SelectorBuild.pseudoClass v s
  | (Kind.pseudoElement, v), s => SelectorBuild.pseudoElement v s

/-- Run a chain of adder calls; a thrown error aborts the chain (the JS
exception propagates), leaving the state the failing call produced. -/
def runSeq : List (Kind × String) → SelState → Option SelErr × SelState
  | [], s => (none, s)
  | c :: cs, s =>
    match runCall c s with
    | (some e, s') => (some e, s')
    | (none, s') => runSeq cs s'

namespace cssSelectorBuilder

/-- Facade `element`: fresh instance, then the adder. -/
def element (v : String) : Option SelErr × SelState := SelectorBuild.element v emptySel

/-- Facade `id`. -/
def id (v : String) : Option SelErr × SelState := SelectorBuild.id v emptySel

/-- Facade `class`. -/
def cls (v : String) : Option SelErr × SelState := SelectorBuild.cls v emptySel

/-- Facade `attr`. -/
def attr (v : String) : Option SelErr × SelState := SelectorBuild.attr v emptySel

/-- Facade `pseudoClass`. -/
def pseudoClass (v : String) : Option SelErr × SelState := SelectorBuild.pseudoClass v emptySel

/-- Facade `pseudoElement`. -/
def pseudoElement (v : String) : Option SelErr × SelState := SelectorBuild.pseudoElement v emptySel

/-- Facade `combine`: `new SelectorBuild().combine(selec1, separ, selec2)`. -/
def combine (s1 : SelState) (separ : String) (s2 : SelState) : SelState :=
  SelectorBuild.combine emptySel s1 separ s2

end cssSelectorBuilder

/-- The error component of one adder call as a function of the `selectors`
map alone (the call never reads `arrCombine`); used to factor `runCall`. -/
def callErr (k : Kind) (v : String) (sel : List (Kind × List String)) : Option SelErr :=
  if isScalar k = true ∧ decide (k ∈ sel.map Prod.fst) = true then
    some SelErr.DuplicatePartError
  else if posViolation ((addFrag sel k (frag k v)).map Prod.fst) then
    some SelErr.OrderViolationError
  else none

/-- The post-call `selectors` map of one adder call as a function of the
`selectors` map alone. -/
def callSel (k : Kind) (v : String) (sel : List (Kind × List String)) :
    List (Kind × List String) :=
  if isScalar k = true ∧ decide (k ∈ sel.map Prod.fst) = true then sel
  else addFrag sel k (frag k v)

/-- The facade call `combine(s1, sep, s2)` over an explicit object heap
(addresses are list positions): `new SelectorBuild()` allocates a fresh cell
at the end of the heap and its `combine` body only reads the two argument
cells, so the pre-existing cells are carried over unchanged. -/
def heapCombine (h : List SelState) (a1 : Nat) (t : String) (a2 : Nat) :
    List SelState × Nat :=
  (h ++ [SelectorBuild.combine emptySel (h.getD a1 emptySel) t (h.getD a2 emptySel)],
   h.length)

/-- A JavaScript object as `fromJSON` sees it: its own enumerable properties
plus the properties (methods) of the prototype it was created with.  One
prototype level suffices for `Object.assign(Object.create(proto), ...)`. -/
structure JsObject (α : Type) : Type where
  protoProps : List (String × α)
  ownProps : List (String × α)
deriving DecidableEq

/-- `Object.create(proto)`: a fresh object with no own properties whose
prototype is `proto`. -/
def objectCreate {α : Type} (proto : List (String × α)) : JsObject α := ⟨proto, []⟩

/-- Set one own property: overwrite in place if the name exists, else append
(JavaScript own-property assignment order). -/
def setProp {α : Type} : List (String × α) → String → α → List (String × α)
  | [], n, x => [(n, x)]
  | (n', y) :: rest, n, x =>
    if n' = n then (n', x) :: rest else (n', y) :: setProp rest n x

/-- `Object.assign(target, src)`: copy the source fields onto the target in
order, as own properties. -/
def objectAssign {α : Type} (o : JsObject α) (fields : List (String × α)) : JsObject α :=
  fields.foldl (fun acc f => { acc with ownProps := setProp acc.ownProps f.1 f.2 }) o

/-- Property access with prototype fallthrough: own properties shadow the
prototype's. -/
def JsObject.getProp {α : Type} (o : JsObject α) (n : String) : Option α :=
  match o.ownProps.lookup n with
  | some x => some x
  | none => o.protoProps.lookup n

/-- `fromJSON(proto, json) = Object.assign(Object.create(proto), JSON.parse(json))`.
`JSON.parse` is an external platform function; it is abstracted as the list of
field/value pairs it produced from the JSON text. -/
def fromJSON {α : Type} (proto parsed : List (String × α)) : JsObject α :=
  objectAssign (objectCreate proto) parsed

section Helpers

lemma mem_positions (k : Kind) : k ∈ positions := by cases k <;> simp [positions]

lemma positions_nodup : positions.Nodup := by decide

/-- A key list that is an in-order selection from `positions` never triggers
`validPosition`. -/
lemma sorted_no_violation : ∀ ks ∈ positions.sublists, posViolation ks = false := by decide

/-- Appending a fresh key to an in-order key list triggers `validPosition`
exactly when some present key has a strictly larger canonical index. -/
lemma sorted_insert_violation_iff :
    ∀ ks ∈ positions.sublists, ∀ k : Kind, k ∉ ks →
      (posViolation (ks ++ [k]) = true ↔ ∃ q ∈ ks, kindIdx k < kindIdx q) := by decide

/-- Appending a key larger than all present keys keeps the key list an
in-order selection from `positions`. -/
lemma sorted_insert_mem :
    ∀ ks ∈ positions.sublists, ∀ k : Kind, k ∉ ks →
      (∀ q ∈ ks, kindIdx q < kindIdx k) → ks ++ [k] ∈ positions.sublists := by decide

/-- In an in-order key list, a present key bounding all others is the last. -/
lemma sorted_mem_max_last :
    ∀ ks ∈ positions.sublists, ∀ k ∈ ks, (∀ q ∈ ks, kindIdx q ≤ kindIdx k) →
      ks.getLast? = some k := by decide

lemma kindIdx_injective : ∀ a b : Kind, kindIdx a = kindIdx b → a = b := by decide

lemma addFrag_keys (m : List (Kind × List String)) (k : Kind) (v : String) :
    (addFrag m k v).map Prod.fst =
      if k ∈ m.map Prod.fst then m.map Prod.fst else m.map Prod.fst ++ [k] := by
  induction m with
  | nil => simp [addFrag]
  | cons p rest ih =>
    obtain ⟨k', vs⟩ := p
    by_cases h : k' = k
    · subst h; simp [addFrag]
    · simp only [addFrag, if_neg h, List.map_cons, List.mem_cons]
      rw [ih]
      by_cases hk : k ∈ rest.map Prod.fst
      · simp [hk, h, Ne.symm h]
      · simp [hk, h, Ne.symm h]

lemma addFrag_values_notMem (m : List (Kind × List String)) (k : Kind) (v : String)
    (h : k ∉ m.map Prod.fst) :
    (addFrag m k v).flatMap Prod.snd = m.flatMap Prod.snd ++ [v] := by
  induction m with
  | nil => simp [addFrag]
  | cons p rest ih =>
    obtain ⟨k', vs⟩ := p
    simp only [List.map_cons, List.mem_cons, not_or] at h
    simp [addFrag, Ne.symm h.1, ih h.2, List.append_assoc]

lemma addFrag_values_last (m : List (Kind × List String)) (k : Kind) (v : String)
    (hnd : (m.map Prod.fst).Nodup) (h : (m.map Prod.fst).getLast? = some k) :
    (addFrag m k v).flatMap Prod.snd = m.flatMap Prod.snd ++ [v] := by
  induction m with
  | nil => simp at h
  | cons p rest ih =>
    obtain ⟨k', vs⟩ := p
    simp only [List.map_cons] at h hnd
    by_cases hk : k' = k
    · subst hk
      cases rest with
      | nil => simp [addFrag]
      | cons q qs =>
        exfalso
        rw [List.map_cons, List.getLast?_cons_cons] at h
        exact (List.nodup_cons.mp hnd).1
          (List.mem_of_mem_getLast? (Option.mem_def.mpr h))
    · cases rest with
      | nil =>
        exfalso
        simp only [List.map_nil, List.getLast?_singleton, Option.some_inj] at h
        exact hk h
      | cons q qs =>
        rw [List.map_cons, List.getLast?_cons_cons] at h
        have h2 : (List.map Prod.fst (q :: qs)).getLast? = some k := by
          rw [List.map_cons]; exact h
        have step : addFrag ((k', vs) :: q :: qs) k v = (k', vs) :: addFrag (q :: qs) k v := by
          simp [addFrag, hk]
        rw [step, List.flatMap_cons, List.flatMap_cons,
          ih (List.nodup_cons.mp hnd).2 h2, List.append_assoc]

lemma string_mk_append (a b : List Char) :
    String.mk a ++ String.mk b = String.mk (a ++ b) := rfl

lemma string_join_append (l₁ l₂ : List String) :
    String.join (l₁ ++ l₂) = String.join l₁ ++ String.join l₂ := by
  rw [String.join_eq, String.join_eq, String.join_eq, string_mk_append,
    List.map_append, List.flatten_append]

lemma string_join_singleton (a : String) : String.join [a] = a := by
  rw [String.join_eq]
  cases a
  simp

lemma string_join_cons (a : String) (l : List String) :
    String.join (a :: l) = a ++ String.join l := by
  rw [show (a :: l) = [a] ++ l from rfl, string_join_append, string_join_singleton]

lemma getD_append_lt {α : Type} (l l' : List α) (n : Nat) (d : α) (h : n < l.length) :
    (l ++ l').getD n d = l.getD n d := by
  simp [List.getD_eq_getElem?_getD, List.getElem?_append_left h]

lemma mem_addFrag_keys (m : List (Kind × List String)) (k : Kind) (v : String) :
    k ∈ (addFrag m k v).map Prod.fst := by
  rw [addFrag_keys]
  by_cases hk : k ∈ m.map Prod.fst
  · rw [if_pos hk]; exact hk
  · rw [if_neg hk]
    exact List.mem_append_right _ (List.mem_singleton.mpr rfl)

end Helpers

section Sanity

example :
    (runSeq [(Kind.id, "main"), (Kind.cls, "container"), (Kind.cls, "editable")] emptySel).2.stringify
      = "#main.container.editable" := by rfl

example :
    (runSeq [(Kind.element, "a"), (Kind.attr, "href"), (Kind.pseudoClass, "focus")] emptySel).2.stringify
      = "a[href]:focus" := by rfl

example :
    (runSeq [(Kind.id, "main"), (Kind.element, "div")] emptySel).1
      = some SelErr.OrderViolationError := by rfl

example :
    (runSeq [(Kind.cls, "a"), (Kind.attr, "b"), (Kind.cls, "c")] emptySel).1 = none := by rfl

example :
    (cssSelectorBuilder.combine
      (runSeq [(Kind.element, "div"), (Kind.id, "main")] emptySel).2 "+"
      (runSeq [(Kind.element, "table"), (Kind.id, "data")] emptySel).2).stringify
      = "div#main + table#data" := by rfl

end Sanity

section RunLemmas

/-- Uniform description of one adder call: a scalar kind first runs
`validUniq` (throwing before any mutation), then every kind stores its
fragment and runs `validPosition` (throwing after the mutation). -/
lemma runCall_eq (k : Kind) (v : String) (s : SelState) :
    runCall (k, v) s =
      if isScalar k = true ∧ validUniq s k = true then (some SelErr.DuplicatePartError, s)
      else if validPosition { s with selectors := addFrag s.selectors k (frag k v) } then
        (some SelErr.OrderViolationError, { s with selectors := addFrag s.selectors k (frag k v) })
      else (none, { s with selectors := addFrag s.selectors k (frag k v) }) := by
  cases k <;>
    simp [runCall, SelectorBuild.element, SelectorBuild.id, SelectorBuild.cls,
      SelectorBuild.attr, SelectorBuild.pseudoClass, SelectorBuild.pseudoElement,
      SelectorBuild.scalarAdd, SelectorBuild.multiAdd, isScalar]

/-- Main invariant of a run of adder calls whose canonical indices never
decrease and whose scalar kinds are not repeated: no call throws, every call
appends exactly its fragment to the flattened map values, `arrCombine` is
untouched, and the key list stays an in-order selection from `positions`. -/
lemma runSeq_valid :
    ∀ (cs : List (Kind × String)) (s : SelState),
      s.keys ∈ positions.sublists →
      List.Pairwise (fun a b => kindIdx a.1 ≤ kindIdx b.1) cs →
      (∀ key ∈ s.keys, ∀ c ∈ cs, kindIdx key ≤ kindIdx c.1) →
      (∀ k, isScalar k = true → k ∈ s.keys → ∀ c ∈ cs, c.1 ≠ k) →
      (∀ k, isScalar k = true → cs.countP (fun c => decide (c.1 = k)) ≤ 1) →
      (runSeq cs s).1 = none ∧
      (runSeq cs s).2.valuesFlat = s.valuesFlat ++ cs.map (fun c => frag c.1 c.2) ∧
      (runSeq cs s).2.arrCombine = s.arrCombine ∧
      (runSeq cs s).2.keys ∈ positions.sublists
  | [], s, hmem, _, _, _, _ => by simp [runSeq, hmem]
  | (k, v) :: cs, s, hmem, hpw, hbound, hscalmem, hcount => by
    have hnd : s.keys.Nodup :=
      ((List.mem_sublists.mp hmem).nodup positions_nodup)
    obtain ⟨hpwhead, hpwtail⟩ := List.pairwise_cons.mp hpw
    have hmax : ∀ q ∈ s.keys, kindIdx q ≤ kindIdx k :=
      fun q hq => hbound q hq (k, v) (List.mem_cons_self _ _)
    by_cases hk : k ∈ s.keys
    · -- the kind is already present: it must be multi-valued and the last key
      have hscal : isScalar k = false := by
        cases hsc : isScalar k
        · rfl
        · exact absurd rfl (hscalmem k hsc hk (k, v) (List.mem_cons_self _ _))
      have hlast : s.keys.getLast? = some k := sorted_mem_max_last s.keys hmem k hk hmax
      have hkeys' : (addFrag s.selectors k (frag k v)).map Prod.fst = s.keys := by
        rw [addFrag_keys]
        exact if_pos hk
      have hvals' : (addFrag s.selectors k (frag k v)).flatMap Prod.snd
          = s.selectors.flatMap Prod.snd ++ [frag k v] :=
        addFrag_values_last s.selectors k (frag k v) hnd hlast
      have hstep : runCall (k, v) s =
          (none, { s with selectors := addFrag s.selectors k (frag k v) }) := by
        rw [runCall_eq]
        rw [if_neg (by simp [hscal])]
        have : validPosition { s with selectors := addFrag s.selectors k (frag k v) } = false := by
          show posViolation ((addFrag s.selectors k (frag k v)).map Prod.fst) = false
          rw [hkeys']
          exact sorted_no_violation s.keys hmem
        simp [this]
      have ih := runSeq_valid cs { s with selectors := addFrag s.selectors k (frag k v) }
        (by show (addFrag s.selectors k (frag k v)).map Prod.fst ∈ positions.sublists;
            rw [hkeys']; exact hmem)
        hpwtail
        (by intro key hkey c hc
            rw [show SelState.keys { s with selectors := addFrag s.selectors k (frag k v) }
                  = s.keys from hkeys'] at hkey
            exact hbound key hkey c (List.mem_cons_of_mem _ hc))
        (by intro q hq hqmem c hc
            rw [show SelState.keys { s with selectors := addFrag s.selectors k (frag k v) }
                  = s.keys from hkeys'] at hqmem
            exact hscalmem q hq hqmem c (List.mem_cons_of_mem _ hc))
        (by intro q hq
            have := hcount q hq
            rw [List.countP_cons] at this
            omega)
      refine ⟨?_, ?_, ?_, ?_⟩
      · show (runSeq ((k, v) :: cs) s).1 = none
        rw [runSeq, hstep]
        exact ih.1
      · show (runSeq ((k, v) :: cs) s).2.valuesFlat = _
        rw [runSeq, hstep]
        rw [ih.2.1]
        show (addFrag s.selectors k (frag k v)).flatMap Prod.snd ++ _ = _
        rw [hvals', List.map_cons, List.append_assoc]
        rfl
      · show (runSeq ((k, v) :: cs) s).2.arrCombine = _
        rw [runSeq, hstep]
        exact ih.2.2.1
      · show (runSeq ((k, v) :: cs) s).2.keys ∈ _
        rw [runSeq, hstep]
        exact ih.2.2.2
    · -- a fresh kind: strictly above every present key, appended at the end
      have hstrict : ∀ q ∈ s.keys, kindIdx q < kindIdx k := by
        intro q hq
        refine Nat.lt_of_le_of_ne (hmax q hq) (fun he => hk ?_)
        rw [← kindIdx_injective q k he]
        exact hq
      have hkeys' : (addFrag s.selectors k (frag k v)).map Prod.fst = s.keys ++ [k] := by
        rw [addFrag_keys]
        exact if_neg hk
      have hmem' : s.keys ++ [k] ∈ positions.sublists :=
        sorted_insert_mem s.keys hmem k hk hstrict
      have hvals' : (addFrag s.selectors k (frag k v)).flatMap Prod.snd
          = s.selectors.flatMap Prod.snd ++ [frag k v] :=
        addFrag_values_notMem s.selectors k (frag k v) hk
      have hstep : runCall (k, v) s =
          (none, { s with selectors := addFrag s.selectors k (frag k v) }) := by
        rw [runCall_eq]
        rw [if_neg (by simp [validUniq, hk])]
        have : validPosition { s with selectors := addFrag s.selectors k (frag k v) } = false := by
          show posViolation ((addFrag s.selectors k (frag k v)).map Prod.fst) = false
          rw [hkeys']
          exact sorted_no_violation _ hmem'
        simp [this]
      have hcount0 : isScalar k = true → ∀ c ∈ cs, c.1 ≠ k := by
        intro hsc c hc
        have h1 := hcount k hsc
        have h2 : ((k, v) :: cs).countP (fun c => decide (c.1 = k))
            = cs.countP (fun c => decide (c.1 = k)) + 1 :=
          List.countP_cons_of_pos (p := fun c => decide (c.1 = k)) cs (by simp)
        rw [h2] at h1
        have hz : cs.countP (fun c => decide (c.1 = k)) = 0 := by omega
        have := List.countP_eq_zero.mp hz c hc
        simpa using this
      have ih := runSeq_valid cs { s with selectors := addFrag s.selectors k (frag k v) }
        (by show (addFrag s.selectors k (frag k v)).map Prod.fst ∈ positions.sublists;
            rw [hkeys']; exact hmem')
        hpwtail
        (by intro key hkey c hc
            rw [show SelState.keys { s with selectors := addFrag s.selectors k (frag k v) }
                  = s.keys ++ [k] from hkeys'] at hkey
            rcases List.mem_append.mp hkey with h | h
            · exact hbound key h c (List.mem_cons_of_mem _ hc)
            · rw [List.mem_singleton.mp h]
              exact hpwhead c hc)
        (by intro q hq hqmem c hc
            rw [show SelState.keys { s with selectors := addFrag s.selectors k (frag k v) }
                  = s.keys ++ [k] from hkeys'] at hqmem
            rcases List.mem_append.mp hqmem with h | h
            · exact hscalmem q hq h c (List.mem_cons_of_mem _ hc)
            · rw [List.mem_singleton.mp h] at hq ⊢
              exact hcount0 hq c hc)
        (by intro q hq
            have := hcount q hq
            rw [List.countP_cons] at this
            omega)
      refine ⟨?_, ?_, ?_, ?_⟩
      · show (runSeq ((k, v) :: cs) s).1 = none
        rw [runSeq, hstep]
        exact ih.1
      · show (runSeq ((k, v) :: cs) s).2.valuesFlat = _
        rw [runSeq, hstep]
        rw [ih.2.1]
        show (addFrag s.selectors k (frag k v)).flatMap Prod.snd ++ _ = _
        rw [hvals', List.map_cons, List.append_assoc]
        rfl
      · show (runSeq ((k, v) :: cs) s).2.arrCombine = _
        rw [runSeq, hstep]
        exact ih.2.2.1
      · show (runSeq ((k, v) :: cs) s).2.keys ∈ _
        rw [runSeq, hstep]
        exact ih.2.2.2

/-- `runCall` factored through `callErr`/`callSel`: the error and the new map
depend only on the `selectors` component, and `arrCombine` is untouched. -/
lemma runCall_split (k : Kind) (v : String) (s : SelState) :
    runCall (k, v) s = (callErr k v s.selectors, ⟨callSel k v s.selectors, s.arrCombine⟩) := by
  rw [runCall_eq, callErr, callSel]
  by_cases h1 : isScalar k = true ∧ validUniq s k = true
  · have h1' : isScalar k = true ∧ decide (k ∈ s.selectors.map Prod.fst) = true := h1
    rw [if_pos h1, if_pos h1', if_pos h1']
  · have h1' : ¬(isScalar k = true ∧ decide (k ∈ s.selectors.map Prod.fst) = true) := h1
    rw [if_neg h1, if_neg h1', if_neg h1']
    by_cases h2 : validPosition { s with selectors := addFrag s.selectors k (frag k v) } = true
    · have h2' : posViolation ((addFrag s.selectors k (frag k v)).map Prod.fst) = true := h2
      rw [if_pos h2, if_pos h2']
    · have h2' : ¬posViolation ((addFrag s.selectors k (frag k v)).map Prod.fst) = true := h2
      rw [if_neg h2, if_neg h2']

/-- One-step unfolding of `runSeq` in terms of the first call's outcome. -/
lemma runSeq_cons (c : Kind × String) (cs : List (Kind × String)) (s : SelState) :
    runSeq (c :: cs) s =
      if (runCall c s).1 = none then runSeq cs (runCall c s).2
      else ((runCall c s).1, (runCall c s).2) := by
  rcases hr : runCall c s with ⟨e, s'⟩
  cases e <;> simp [runSeq, hr]

/-- A run of adder calls never touches `arrCombine`, and its errors and final
map depend only on the starting `selectors` map. -/
lemma runSeq_split :
    ∀ (cs : List (Kind × String)) (s : SelState),
      (runSeq cs s).2.arrCombine = s.arrCombine ∧
      ∀ (s2 : SelState), s.selectors = s2.selectors →
        (runSeq cs s).1 = (runSeq cs s2).1 ∧
        (runSeq cs s).2.selectors = (runSeq cs s2).2.selectors
  | [], s => by
    constructor
    · rfl
    · intro s2 hsel
      exact ⟨rfl, hsel⟩
  | c :: cs, s => by
    obtain ⟨k, v⟩ := c
    constructor
    · rw [runSeq_cons, runCall_split]
      by_cases he : callErr k v s.selectors = none
      · simp only [he, if_pos rfl]
        exact (runSeq_split cs ⟨callSel k v s.selectors, s.arrCombine⟩).1
      · rw [if_neg (by simpa using he)]
    · intro s2 hsel
      rw [runSeq_cons, runSeq_cons, runCall_split, runCall_split, ← hsel]
      by_cases he : callErr k v s.selectors = none
      · simp only [he, if_pos rfl]
        have h1 := (runSeq_split cs ⟨callSel k v s.selectors, s.arrCombine⟩).2
          ⟨callSel k v s.selectors, s2.arrCombine⟩ rfl
        have h2 := (runSeq_split cs ⟨callSel k v s.selectors, s.arrCombine⟩).1
        have h3 := (runSeq_split cs ⟨callSel k v s.selectors, s2.arrCombine⟩).1
        exact h1
      · rw [if_neg (by simpa using he), if_neg (by simpa using he)]
        exact ⟨rfl, rfl⟩

/-- Characterization of the order-violation error on a selector whose key
list is an in-order selection from `positions` (every state reachable by
successful adds): the failing adds are exactly those that introduce a NEW
kind below an already-present kind. -/
lemma runCall_order_iff (s : SelState) (k : Kind) (v : String)
    (hmem : s.keys ∈ positions.sublists)
    (hdup : isScalar k = true → k ∉ s.keys) :
    (runCall (k, v) s).1 = some SelErr.OrderViolationError ↔
      k ∉ s.keys ∧ ∃ q ∈ s.keys, kindIdx k < kindIdx q := by
  rw [runCall_eq]
  have hni : ¬(isScalar k = true ∧ validUniq s k = true) := by
    rintro ⟨h1, h2⟩
    exact hdup h1 (by simpa [validUniq] using h2)
  rw [if_neg hni]
  by_cases hk : k ∈ s.keys
  · have hkeys' : (addFrag s.selectors k (frag k v)).map Prod.fst = s.keys := by
      rw [addFrag_keys]
      exact if_pos hk
    have hvp : validPosition { s with selectors := addFrag s.selectors k (frag k v) } = false := by
      show posViolation ((addFrag s.selectors k (frag k v)).map Prod.fst) = false
      rw [hkeys']
      exact sorted_no_violation s.keys hmem
    simp [hvp, hk]
  · have hkeys' : (addFrag s.selectors k (frag k v)).map Prod.fst = s.keys ++ [k] := by
      rw [addFrag_keys]
      exact if_neg hk
    have hiff := sorted_insert_violation_iff s.keys hmem k hk
    have hvp : validPosition { s with selectors := addFrag s.selectors k (frag k v) }
        = posViolation (s.keys ++ [k]) := by
      show posViolation ((addFrag s.selectors k (frag k v)).map Prod.fst) = _
      rw [hkeys']
    cases hb : posViolation (s.keys ++ [k]) with
    | true =>
      rw [hvp, hb]
      constructor
      · intro _
        exact ⟨hk, hiff.mp hb⟩
      · intro _
        rfl
    | false =>
      rw [hvp, hb]
      constructor
      · intro h
        simp at h
      · rintro ⟨-, q, hq, hlt⟩
        have hvio := hiff.mpr ⟨q, hq, hlt⟩
        rw [hb] at hvio
        exact Bool.noConfusion hvio

end RunLemmas

section JsObjectLemmas

lemma setProp_notMem {α : Type} (l : List (String × α)) (n : String) (x : α)
    (h : n ∉ l.map Prod.fst) : setProp l n x = l ++ [(n, x)] := by
  induction l with
  | nil => rfl
  | cons p rest ih =>
    obtain ⟨n', y⟩ := p
    simp only [List.map_cons, List.mem_cons, not_or] at h
    simp [setProp, Ne.symm h.1, ih h.2]

lemma objectAssign_cons {α : Type} (f : String × α) (fs : List (String × α)) (o : JsObject α) :
    objectAssign o (f :: fs) =
      objectAssign { o with ownProps := setProp o.ownProps f.1 f.2 } fs := rfl

lemma objectAssign_protoProps {α : Type} :
    ∀ (fields : List (String × α)) (o : JsObject α),
      (objectAssign o fields).protoProps = o.protoProps
  | [], _ => rfl
  | f :: fs, o => by
    rw [objectAssign_cons]
    exact objectAssign_protoProps fs _

lemma objectAssign_ownProps {α : Type} :
    ∀ (fields : List (String × α)) (o : JsObject α),
      (fields.map Prod.fst).Nodup →
      (∀ f ∈ fields, f.1 ∉ o.ownProps.map Prod.fst) →
      (objectAssign o fields).ownProps = o.ownProps ++ fields
  | [], o, _, _ => by simp [objectAssign]
  | f :: fs, o, hnd, hdisj => by
    obtain ⟨n, x⟩ := f
    rw [objectAssign_cons]
    have hnd' : (n :: fs.map Prod.fst).Nodup := by simpa using hnd
    have hstep : setProp o.ownProps n x = o.ownProps ++ [(n, x)] :=
      setProp_notMem _ _ _ (hdisj (n, x) (List.mem_cons_self _ _))
    simp only [hstep]
    rw [objectAssign_ownProps fs _ (List.nodup_cons.mp hnd').2 ?_]
    · rw [List.append_assoc]
      rfl
    · intro g hg
      rw [List.map_append]
      intro hmem
      rcases List.mem_append.mp hmem with hmem | hmem
      · exact hdisj g (List.mem_cons_of_mem _ hg) hmem
      · have hgn : g.1 = n := by simpa using hmem
        exact (List.nodup_cons.mp hnd').1 (hgn ▸ List.mem_map_of_mem Prod.fst hg)

end JsObjectLemmas

section Claims

/-- C1: the claim states that `OrderViolationError` is raised exactly when the
canonical index of the added part-kind is strictly below the running maximum
of all previously added parts, so that re-adding a class after an attribute
still raises.  The code disagrees: after `class(a)` and `attr(b)`, a second
`class(c)` targets canonical index 2 < 3 yet raises nothing, because
`validPosition` only inspects the insertion order of the FIRST occurrence of
each kind. -/
theorem c1_counterexample :
    (runSeq [(Kind.cls, "a"), (Kind.attr, "b")] emptySel).1 = none ∧
    kindIdx Kind.cls < kindIdx Kind.attr ∧
    (SelectorBuild.cls "c" (runSeq [(Kind.cls, "a"), (Kind.attr, "b")] emptySel).2).1 = none :=
  ⟨rfl, by decide, rfl⟩

/-- C1 (amended): on any selector whose present kinds are in canonical order
(true of every state reachable by successful adds), and excluding the
duplicate error for scalar kinds, an adder call raises `OrderViolationError`
iff the added kind is NOT yet present and some already-present kind has a
strictly larger canonical index.  In particular, re-adding an already-present
multi-valued kind never raises the error, even after a later-kind part was
added. -/
theorem c1_amended_order_iff (s : SelState) (k : Kind) (v : String)
    (hmem : s.keys ∈ positions.sublists)
    (hdup : isScalar k = true → k ∉ s.keys) :
    (runCall (k, v) s).1 = some SelErr.OrderViolationError ↔
      k ∉ s.keys ∧ ∃ q ∈ s.keys, kindIdx k < kindIdx q :=
  runCall_order_iff s k v hmem hdup

/-- C1 witness: adding a first class to a selector holding an attribute does
raise the order error. -/
theorem c1_amended_witness :
    (runCall (Kind.cls, "y") (⟨[(Kind.attr, ["[x]"])], []⟩ : SelState)).1
      = some SelErr.OrderViolationError :=
  (c1_amended_order_iff ⟨[(Kind.attr, ["[x]"])], []⟩ Kind.cls "y" (by decide)
    (by decide)).mpr (by decide)

/-- C2: the claim states a combination used as the LEFT argument of a further
combination contributes its full combined chain.  The code's `combine` spreads
only `selector1.selectors.values()` — never `selector1.arrCombine` — so the
left chain is lost: with x, y, z single-element selectors the nested result
renders " + c" instead of "a ~ b + c". -/
theorem c2_counterexample :
    (cssSelectorBuilder.combine
        (cssSelectorBuilder.combine (cssSelectorBuilder.element "a").2 "~"
          (cssSelectorBuilder.element "b").2)
        "+" (cssSelectorBuilder.element "c").2).stringify = " + c" ∧
    (cssSelectorBuilder.element "a").2.stringify ++ " ~ "
        ++ (cssSelectorBuilder.element "b").2.stringify ++ " + "
        ++ (cssSelectorBuilder.element "c").2.stringify = "a ~ b + c" ∧
    (" + c" : String) ≠ "a ~ b + c" :=
  ⟨rfl, rfl, by decide⟩

/-- C2 (amended): when the left argument of a facade `combine` is itself a
facade combination (its `selectors` map is empty, its chain lives in
`arrCombine`), the outer result renders as the padded combinator followed by
the right argument's rendering only; the left chain is dropped. -/
theorem c2_amended_left_chain_dropped (x y z : SelState) (t1 t2 : String)
    (hz : z.arrCombine = []) :
    (cssSelectorBuilder.combine (cssSelectorBuilder.combine x t1 y) t2 z).stringify
      = " " ++ t2 ++ " " ++ z.stringify := by
  have hzs : z.stringify = String.join z.valuesFlat := by
    rw [SelState.stringify, if_neg (by simp [hz])]
  have harr : (cssSelectorBuilder.combine (cssSelectorBuilder.combine x t1 y) t2 z).arrCombine
      = (" " ++ t2 ++ " ") :: z.valuesFlat := by
    simp [cssSelectorBuilder.combine, SelectorBuild.combine, emptySel, SelState.valuesFlat, hz]
  have hs : (cssSelectorBuilder.combine (cssSelectorBuilder.combine x t1 y) t2 z).stringify
      = String.join ((" " ++ t2 ++ " ") :: z.valuesFlat) := by
    rw [SelState.stringify, if_pos (by rw [harr]; simp), harr]
  rw [hs, string_join_cons, ← hzs]

/-- C2 witness for the amended statement at concrete selectors. -/
theorem c2_amended_witness :
    (cssSelectorBuilder.combine
        (cssSelectorBuilder.combine (⟨[(Kind.element, ["a"])], []⟩ : SelState) "~"
          (⟨[(Kind.element, ["b"])], []⟩ : SelState))
        "+" (⟨[(Kind.element, ["c"])], []⟩ : SelState)).stringify
      = " " ++ "+" ++ " " ++ (⟨[(Kind.element, ["c"])], []⟩ : SelState).stringify :=
  c2_amended_left_chain_dropped _ _ _ "~" "+" rfl

/-- C3: the claim states a failing part-adding call performs no partial
mutation.  False for `OrderViolationError`: every adder mutates the map and
only then calls `validPosition`, so after `id('main')` the failing
`element('div')` leaves the rejected fragment stored and a subsequent
`stringify()` renders "#maindiv". -/
theorem c3_counterexample :
    (SelectorBuild.element "div" (cssSelectorBuilder.id "main").2).1
        = some SelErr.OrderViolationError ∧
    (SelectorBuild.element "div" (cssSelectorBuilder.id "main").2).2
        ≠ (cssSelectorBuilder.id "main").2 ∧
    (SelectorBuild.element "div" (cssSelectorBuilder.id "main").2).2.stringify
        = "#maindiv" :=
  ⟨rfl, by decide, rfl⟩

/-- C3 (amended): a call failing with `DuplicatePartError` leaves the state
exactly as before (that check precedes the mutation); every other outcome —
success or `OrderViolationError` — stores the fragment, because the mutation
precedes the position check. -/
theorem c3_amended_mutation (k : Kind) (v : String) (s : SelState) :
    (runCall (k, v) s).2 =
      if (runCall (k, v) s).1 = some SelErr.DuplicatePartError then s
      else { s with selectors := addFrag s.selectors k (frag k v) } := by
  rw [runCall_eq]
  by_cases h1 : isScalar k = true ∧ validUniq s k = true
  · rw [if_pos h1]
    simp
  · rw [if_neg h1]
    by_cases h2 : validPosition { s with selectors := addFrag s.selectors k (frag k v) } = true
    · rw [if_pos h2]
      simp
    · rw [if_neg h2]
      simp

/-- C4: every sequence of part-adding calls with non-decreasing canonical
indices (and, for a valid ordering, no repeated scalar kind) runs without
error and renders as the concatenation of the fragments with their prefix
conventions, in canonical order — which is the given order — multi-valued
kinds in insertion order, with no separators. -/
theorem c4_render_valid_sequence (cs : List (Kind × String))
    (hmono : List.Chain' (· ≤ ·) (cs.map (fun c => kindIdx c.1)))
    (hscalar : ∀ k, isScalar k = true → cs.countP (fun c => decide (c.1 = k)) ≤ 1) :
    (runSeq cs emptySel).1 = none ∧
    (runSeq cs emptySel).2.stringify = String.join (cs.map (fun c => frag c.1 c.2)) := by
  have hpw : List.Pairwise (fun a b => kindIdx a.1 ≤ kindIdx b.1) cs :=
    List.pairwise_map.mp (List.chain'_iff_pairwise.mp hmono)
  have h := runSeq_valid cs emptySel (by decide) hpw
    (by intro key hkey; exact absurd hkey (by simp [SelState.keys, emptySel]))
    (by intro k hk hkey; exact absurd hkey (by simp [SelState.keys, emptySel]))
    hscalar
  refine ⟨h.1, ?_⟩
  have harr : (runSeq cs emptySel).2.arrCombine = [] := h.2.2.1
  rw [SelState.stringify, if_neg (by simp [harr]), h.2.1]
  rfl

/-- C4 witness: the spec's scenario `element(a).attr(href).pseudoClass(focus)`. -/
theorem c4_witness :
    ((runSeq [(Kind.element, "a"), (Kind.attr, "href"), (Kind.pseudoClass, "focus")]
        emptySel).1 = none ∧
      (runSeq [(Kind.element, "a"), (Kind.attr, "href"), (Kind.pseudoClass, "focus")]
        emptySel).2.stringify
        = String.join ([(Kind.element, "a"), (Kind.attr, "href"),
            (Kind.pseudoClass, "focus")].map (fun c => frag c.1 c.2))) ∧
    String.join ([(Kind.element, "a"), (Kind.attr, "href"),
        (Kind.pseudoClass, "focus")].map (fun c => frag c.1 c.2)) = "a[href]:focus" :=
  ⟨c4_render_valid_sequence _
      (by simp only [List.map_cons, List.map_nil, List.chain'_cons, List.chain'_singleton]
          refine ⟨by decide, by decide, trivial⟩)
      (by decide), rfl⟩

/-- C5: combining two part-built selectors (empty combined chains) renders as
the left rendering, the combinator inserted verbatim with one space on each
side, then the right rendering. -/
theorem c5_combine_render (a b : SelState) (t : String)
    (ha : a.arrCombine = []) (hb : b.arrCombine = []) :
    (cssSelectorBuilder.combine a t b).stringify
      = a.stringify ++ " " ++ t ++ " " ++ b.stringify := by
  have has : a.stringify = String.join a.valuesFlat := by
    rw [SelState.stringify, if_neg (by simp [ha])]
  have hbs : b.stringify = String.join b.valuesFlat := by
    rw [SelState.stringify, if_neg (by simp [hb])]
  have harr : (cssSelectorBuilder.combine a t b).arrCombine
      = a.valuesFlat ++ (" " ++ t ++ " ") :: b.valuesFlat := by
    simp [cssSelectorBuilder.combine, SelectorBuild.combine, emptySel, hb]
  have hs : (cssSelectorBuilder.combine a t b).stringify
      = String.join (a.valuesFlat ++ (" " ++ t ++ " ") :: b.valuesFlat) := by
    rw [SelState.stringify, if_pos (by rw [harr]; simp), harr]
  rw [hs, string_join_append, string_join_cons, ← has, ← hbs]
  simp [String.append_assoc]

/-- C5 witness: `combine(element(div).id(main), '+', element(table).id(data))`. -/
theorem c5_witness :
    (cssSelectorBuilder.combine
        (⟨[(Kind.element, ["div"]), (Kind.id, ["#main"])], []⟩ : SelState) "+"
        (⟨[(Kind.element, ["table"]), (Kind.id, ["#data"])], []⟩ : SelState)).stringify
      = (⟨[(Kind.element, ["div"]), (Kind.id, ["#main"])], []⟩ : SelState).stringify
        ++ " " ++ "+" ++ " "
        ++ (⟨[(Kind.element, ["table"]), (Kind.id, ["#data"])], []⟩ : SelState).stringify :=
  c5_combine_render _ _ "+" rfl rfl

/-- C6: a second add of the same scalar kind (element, id, pseudo-element)
after a successful first add raises `DuplicatePartError`, while the
multi-valued kinds (class, attribute, pseudo-class) can never raise
`DuplicatePartError` on any selector. -/
theorem c6_duplicate_policy (k : Kind) (v w : String) (s : SelState)
    (h : (runCall (k, v) s).1 = none) :
    (isScalar k = true →
      (runCall (k, w) (runCall (k, v) s).2).1 = some SelErr.DuplicatePartError) ∧
    (isScalar k = false →
      ∀ (s2 : SelState) (u : String),
        (runCall (k, u) s2).1 ≠ some SelErr.DuplicatePartError) := by
  constructor
  · intro hsc
    have hsplit := runCall_eq k v s
    by_cases h1 : isScalar k = true ∧ validUniq s k = true
    · rw [if_pos h1] at hsplit
      rw [hsplit] at h
      simp at h
    · rw [if_neg h1] at hsplit
      by_cases h2 : validPosition { s with selectors := addFrag s.selectors k (frag k v) } = true
      · rw [if_pos h2] at hsplit
        rw [hsplit] at h
        simp at h
      · rw [if_neg h2] at hsplit
        rw [hsplit]
        rw [runCall_eq]
        rw [if_pos ⟨hsc, decide_eq_true (mem_addFrag_keys s.selectors k (frag k v))⟩]
  · intro hsc s2 u
    rw [runCall_eq, if_neg (by simp [hsc])]
    by_cases h2 : validPosition { s2 with selectors := addFrag s2.selectors k (frag k u) } = true
    · rw [if_pos h2]
      simp
    · rw [if_neg h2]
      simp

/-- C6 witness: a second `id` on the same selector raises the duplicate
error. -/
theorem c6_witness :
    ((isScalar Kind.id = true →
        (runCall (Kind.id, "b") (runCall (Kind.id, "a") emptySel).2).1
          = some SelErr.DuplicatePartError) ∧
      (isScalar Kind.id = false →
        ∀ (s2 : SelState) (u : String),
          (runCall (Kind.id, u) s2).1 ≠ some SelErr.DuplicatePartError)) :=
  c6_duplicate_policy Kind.id "a" "b" emptySel rfl

/-- C7: adding a class (none present yet) to a selector that already holds an
attribute raises `OrderViolationError`, and adding an element to a selector
that already holds an id (and no element) raises `OrderViolationError`. -/
theorem c7_order_violations (s s2 : SelState) (v w : String)
    (hmem : s.keys ∈ positions.sublists)
    (hattr : Kind.attr ∈ s.keys) (hcls : Kind.cls ∉ s.keys)
    (hmem2 : s2.keys ∈ positions.sublists)
    (hid : Kind.id ∈ s2.keys) (hel : Kind.element ∉ s2.keys) :
    (SelectorBuild.cls v s).1 = some SelErr.OrderViolationError ∧
    (SelectorBuild.element w s2).1 = some SelErr.OrderViolationError := by
  constructor
  · exact (runCall_order_iff s Kind.cls v hmem
      (fun hc => absurd hc (by decide))).mpr ⟨hcls, Kind.attr, hattr, by decide⟩
  · exact (runCall_order_iff s2 Kind.element w hmem2 (fun _ => hel)).mpr
      ⟨hel, Kind.id, hid, by decide⟩

/-- C7 witness at concrete selectors holding one attribute resp. one id. -/
theorem c7_witness :
    (SelectorBuild.cls "c" (⟨[(Kind.attr, ["[x]"])], []⟩ : SelState)).1
        = some SelErr.OrderViolationError ∧
    (SelectorBuild.element "e" (⟨[(Kind.id, ["#i"])], []⟩ : SelState)).1
        = some SelErr.OrderViolationError :=
  c7_order_violations _ _ "c" "e" (by decide) (by decide) (by decide)
    (by decide) (by decide) (by decide)

/-- C8: the facade `combine` allocates a fresh instance and only reads its two
arguments: on the heap model, both input cells are unchanged after the call
(hence their renderings are too) and the result lives at a new address
distinct from both inputs. -/
theorem c8_combine_no_mutation (h : List SelState) (a1 a2 : Nat) (t : String)
    (h1 : a1 < h.length) (h2 : a2 < h.length) :
    (heapCombine h a1 t a2).1.getD a1 emptySel = h.getD a1 emptySel ∧
    (heapCombine h a1 t a2).1.getD a2 emptySel = h.getD a2 emptySel ∧
    ((heapCombine h a1 t a2).1.getD a1 emptySel).stringify
        = (h.getD a1 emptySel).stringify ∧
    ((heapCombine h a1 t a2).1.getD a2 emptySel).stringify
        = (h.getD a2 emptySel).stringify ∧
    (heapCombine h a1 t a2).2 ≠ a1 ∧ (heapCombine h a1 t a2).2 ≠ a2 := by
  have e1 : (heapCombine h a1 t a2).1.getD a1 emptySel = h.getD a1 emptySel :=
    getD_append_lt h _ a1 emptySel h1
  have e2 : (heapCombine h a1 t a2).1.getD a2 emptySel = h.getD a2 emptySel :=
    getD_append_lt h _ a2 emptySel h2
  refine ⟨e1, e2, by rw [e1], by rw [e2], ?_, ?_⟩
  · intro he
    have : h.length = a1 := he
    omega
  · intro he
    have : h.length = a2 := he
    omega

/-- C8 witness on a two-cell heap. -/
theorem c8_witness :
    (heapCombine [emptySel, (⟨[(Kind.element, ["a"])], []⟩ : SelState)] 0 "+" 1).1.getD 0 emptySel
      = [emptySel, (⟨[(Kind.element, ["a"])], []⟩ : SelState)].getD 0 emptySel :=
  (c8_combine_no_mutation [emptySel, ⟨[(Kind.element, ["a"])], []⟩] 0 1 "+"
    (by decide) (by decide)).1

/-- C9: on a selector produced by `combine`, adder calls behave error-wise
exactly as on a fresh empty selector (the combined instance's own map starts
empty), and the fragments they add never appear in `stringify()`: the
non-empty combined chain is rendered alone. -/
theorem c9_combined_ignores_adds (a b : SelState) (t : String)
    (cs : List (Kind × String)) :
    (runSeq cs (cssSelectorBuilder.combine a t b)).1 = (runSeq cs emptySel).1 ∧
    (runSeq cs (cssSelectorBuilder.combine a t b)).2.stringify
        = (cssSelectorBuilder.combine a t b).stringify := by
  have hsel : (cssSelectorBuilder.combine a t b).selectors = emptySel.selectors := rfl
  have hsplit := runSeq_split cs (cssSelectorBuilder.combine a t b)
  refine ⟨(hsplit.2 emptySel hsel).1, ?_⟩
  have harr : (runSeq cs (cssSelectorBuilder.combine a t b)).2.arrCombine
      = (cssSelectorBuilder.combine a t b).arrCombine := hsplit.1
  have hne : (cssSelectorBuilder.combine a t b).arrCombine ≠ [] := by
    simp [cssSelectorBuilder.combine, SelectorBuild.combine, emptySel]
  rw [SelState.stringify, SelState.stringify, if_pos (by rw [harr]; exact hne),
    if_pos hne, harr]

/-- C10: `fromJSON(proto, json)` returns a fresh object whose prototype is the
given one and whose own fields are exactly the parsed JSON fields; property
lookup finds a parsed field first and falls through to the prototype's
properties (its methods) otherwise. -/
theorem c10_fromJSON_merge (α : Type) (proto parsed : List (String × α))
    (hnd : (parsed.map Prod.fst).Nodup) :
    (fromJSON proto parsed).ownProps = parsed ∧
    (fromJSON proto parsed).protoProps = proto ∧
    ∀ n : String, (fromJSON proto parsed).getProp n =
      match parsed.lookup n with
      | some x => some x
      | none => proto.lookup n := by
  have hown : (fromJSON proto parsed).ownProps = parsed := by
    rw [fromJSON, objectAssign_ownProps parsed (objectCreate proto) hnd
      (by simp [objectCreate])]
    simp [objectCreate]
  have hproto : (fromJSON proto parsed).protoProps = proto :=
    objectAssign_protoProps parsed _
  refine ⟨hown, hproto, fun n => ?_⟩
  rw [JsObject.getProp, hown, hproto]

/-- C10 witness: deserializing `{"radius":10}` against a prototype carrying a
method slot. -/
theorem c10_witness :
    (fromJSON [("getArea", 1)] [("radius", 10)]).ownProps = [("radius", 10)] :=
  (c10_fromJSON_merge Nat [("getArea", 1)] [("radius", 10)] (by decide)).1

end Claims
